import Mathlib

/-!
Verification development for the pleb-client nostr core.

Shallow embedding of the parts of the source referenced by the checked
properties:
- `src/nostr/database.rs` (two-tier cache: `MemoryCache`, `NostrDbManager`)
- `src/nostr/dm.rs` (DM conversations: `DmConversation`, `DmManager`)
- `src/nostr/relay.rs` (`RelayManager` fetches, `extract_bolt11_amount`)
- `src/nostr/nwc.rs` (`NwcConnection::from_uri`, `NwcManager::connect`)
- `src/nostr/zap.rs` (`get_zap_invoice`, `zap`)

Rust `HashMap`s are modelled as association lists with unique keys
(insertion order kept; hash iteration order is not observed by any
checked property).  Network and crypto effects (relay queries, HTTP,
signing, NIP-04 encryption) are passed in as explicit oracle arguments,
so a function "performing no network call" is expressed as its result
being independent of the oracle.
-/

namespace Pleb

/-! ### Association-list model of `HashMap<String, V>` -/

def mapLookup {α : Type} : List (String × α) → String → Option α
  | [], _ => none
  | (k, v) :: rest, key => if k = key then some v else mapLookup rest key

def mapContains {α : Type} (m : List (String × α)) (key : String) : Bool :=
  (mapLookup m key).isSome

def mapInsert {α : Type} : List (String × α) → String → α → List (String × α)
  | [], key, v => [(key, v)]
  | (k, w) :: rest, key, v =>
    if k = key then (key, v) :: rest else (k, w) :: mapInsert rest key v

def mapRemove {α : Type} : List (String × α) → String → List (String × α)
  | [], _ => []
  | (k, w) :: rest, key => if k = key then rest else (k, w) :: mapRemove rest key

def mapUpdate {α : Type} : List (String × α) → String → (α → α) → List (String × α)
  | [], _, _ => []
  | (k, w) :: rest, key, f =>
    if k = key then (k, f w) :: rest else (k, w) :: mapUpdate rest key f

/-! ### `src/nostr/database.rs` -/

/-- A nostr event as consumed by `NostrDbManager::ingest_event`
(`nostr_sdk::Event`, restricted to the fields the cache reads; the id and
pubkey are kept in their hex form, as produced by `to_hex()`). -/
structure NostrEvent where
  id : String
  pubkey : String
  kind : Nat
  created_at : Int
  content : String
  tags : List (List String)
deriving DecidableEq, Repr

/-- Naive rendering of a tag list to a JSON-ish string, standing in for
`serde_json::to_string(&event.tags)`; no checked property inspects this
text (string escaping is not modelled). -/
def tagsToJson (tags : List (List String)) : String :=
  let one := fun (t : List String) =>
    "[" ++ String.intercalate "," (t.map (fun s => "\"" ++ s ++ "\"")) ++ "]"
  "[" ++ String.intercalate "," (tags.map one) ++ "]"

/-- `CachedEvent` from `database.rs`; `cached_at` (`Instant`) is a plain
tick count supplied by the caller. -/
structure CachedEvent where
  id : String
  pubkey : String
  content : String
  kind : Nat
  created_at : Int
  tags_json : String
  cached_at : Nat
deriving DecidableEq, Repr

/-- `CachedProfile` from `database.rs`. -/
structure CachedProfile where
  pubkey : String
  name : Option String
  display_name : Option String
  picture : Option String
  nip05 : Option String
  about : Option String
  cached_at : Nat
  last_fetched : Nat
deriving DecidableEq, Repr

/-- `MAX_MEMORY_CACHE_SIZE` from `database.rs`. -/
def MAX_MEMORY_CACHE_SIZE : Nat := 1000

/-- In-memory hot cache layer (`MemoryCache` in `database.rs`). -/
structure MemoryCache where
  events : List (String × CachedEvent)
  profiles : List (String × CachedProfile)
  event_order : List String
deriving DecidableEq, Repr

def MemoryCache.new : MemoryCache :=
  { events := [], profiles := [], event_order := [] }

def MemoryCache.get_event (c : MemoryCache) (id : String) : Option CachedEvent :=
  mapLookup c.events id

def MemoryCache.has_event (c : MemoryCache) (id : String) : Bool :=
  mapContains c.events id

/-- The "remove oldest if at capacity" prelude of
`MemoryCache::insert_event`. -/
def MemoryCache.evictStep (c : MemoryCache) (id : String) : MemoryCache :=
  if c.events.length ≥ MAX_MEMORY_CACHE_SIZE ∧ mapContains c.events id = false then
    match c.event_order.head? with
    | some oldest =>
      { c with events := mapRemove c.events oldest, event_order := c.event_order.tail }
    | none => c
  else c

/-- `MemoryCache::insert_event`: evict the oldest entry when inserting a
fresh id at capacity, then move the id to the back of the LRU order and
insert. -/
def MemoryCache.insert_event (c : MemoryCache) (event : CachedEvent) : MemoryCache :=
  { c.evictStep event.id with
    events := mapInsert (c.evictStep event.id).events event.id event,
    event_order := ((c.evictStep event.id).event_order.erase event.id) ++ [event.id] }

def MemoryCache.get_profile (c : MemoryCache) (pubkey : String) : Option CachedProfile :=
  mapLookup c.profiles pubkey

/-- `MemoryCache::insert_profile`: a plain `HashMap::insert`, with no
size check and no eviction. -/
def MemoryCache.insert_profile (c : MemoryCache) (profile : CachedProfile) : MemoryCache :=
  { c with profiles := mapInsert c.profiles profile.pubkey profile }

def MemoryCache.clear (c : MemoryCache) : MemoryCache :=
  { c with events := [], profiles := [], event_order := [] }

/-- `NostrDbManager`: the durable `nostrdb` tier is modelled by the set of
event ids it has accepted (`process_event` deduplicates internally, so a
known id is a no-op). -/
structure NostrDbManager where
  ndb : List String
  memory_cache : MemoryCache
deriving DecidableEq, Repr

def NostrDbManager.new : NostrDbManager :=
  { ndb := [], memory_cache := MemoryCache.new }

/-- `Ndb::process_event`, projected to its dedup-by-id behaviour. -/
def ndbProcessEvent (ndb : List String) (id : String) : List String :=
  if id ∈ ndb then ndb else ndb ++ [id]

/-- The `CachedEvent` literal built inside `ingest_event`. -/
def ingestCached (event : NostrEvent) (now : Nat) : CachedEvent :=
  { id := event.id
    pubkey := event.pubkey
    content := event.content
    kind := event.kind
    created_at := event.created_at
    tags_json := tagsToJson event.tags
    cached_at := now }

/-- `NostrDbManager::ingest_event` (`now` stands for `Instant::now()`):
memory-tier hit returns `false` and leaves everything untouched; on a
miss the event is written through to the durable tier and inserted into
the memory tier, returning `true`. -/
def NostrDbManager.ingest_event (m : NostrDbManager) (event : NostrEvent) (now : Nat) :
    NostrDbManager × Bool :=
  let event_id := event.id
  if m.memory_cache.has_event event_id then
    (m, false)
  else
    let ndb := ndbProcessEvent m.ndb event_id
    let cached : CachedEvent := ingestCached event now
    ({ ndb := ndb, memory_cache := m.memory_cache.insert_event cached }, true)

/-- Structural invariant tying the two fields of the memory cache's event
tier together: keys are unique, the LRU order has no duplicates, and it
lists exactly the cached ids. -/
def CacheInv (c : MemoryCache) : Prop :=
  (c.events.map Prod.fst).Nodup ∧ c.event_order.Nodup ∧
    (∀ id, mapContains c.events id = true ↔ id ∈ c.event_order)

/-! ### `src/nostr/dm.rs` -/

inductive DmProtocol where
  | Nip04
  | Nip17
deriving DecidableEq, Repr

inductive ConversationCategory where
  | Regular
  | Favorites
  | Archive
  | Unfiltered
deriving DecidableEq, Repr

def ConversationCategory.as_str : ConversationCategory → String
  | .Regular => "regular"
  | .Favorites => "favorites"
  | .Archive => "archive"
  | .Unfiltered => "unfiltered"

def ConversationCategory.from_str (s : String) : ConversationCategory :=
  if s = "favorites" then .Favorites
  else if s = "archive" then .Archive
  else if s = "unfiltered" then .Unfiltered
  else .Regular

/-- `DmMessage` from `dm.rs`. -/
structure DmMessage where
  id : String
  sender_pubkey : String
  recipient_pubkey : String
  content : String
  created_at : Int
  is_outgoing : Bool
  protocol : DmProtocol
deriving DecidableEq, Repr

/-- `DmConversation` from `dm.rs`. -/
structure DmConversation where
  peer_pubkey : String
  peer_name : Option String
  peer_picture : Option String
  last_message : Option String
  last_message_at : Int
  unread_count : Nat
  protocol : DmProtocol
  messages : List DmMessage
  category : ConversationCategory
  has_outgoing : Bool
deriving DecidableEq, Repr

def DmConversation.new (peer_pubkey : String) (protocol : DmProtocol) : DmConversation :=
  { peer_pubkey := peer_pubkey
    peer_name := none
    peer_picture := none
    last_message := none
    last_message_at := 0
    unread_count := 0
    protocol := protocol
    messages := []
    category := .Regular
    has_outgoing := false }

def DmProtocol.label : DmProtocol → String
  | .Nip04 => "NIP-04"
  | .Nip17 => "NIP-17"

/-- The JSON object emitted by `DmConversation::to_json`, as a record
(field names follow the JSON keys; serialisation of a flat record is
injective, so the record itself is the observable). -/
structure DmConversationJson where
  peerPubkey : String
  peerName : Option String
  peerPicture : Option String
  lastMessage : Option String
  lastMessageAt : Int
  unreadCount : Nat
  protocol : String
  category : String
  hasOutgoing : Bool
deriving DecidableEq, Repr

/-- `DmConversation::to_json`: the stored category is reported, except
that a `Regular` conversation that was never replied to is reported as
`Unfiltered`. -/
def DmConversation.to_json (c : DmConversation) : DmConversationJson :=
  let effective_category :=
    if c.category = ConversationCategory.Regular ∧ ¬ c.has_outgoing then
      ConversationCategory.Unfiltered
    else
      c.category
  { peerPubkey := c.peer_pubkey
    peerName := c.peer_name
    peerPicture := c.peer_picture
    lastMessage := c.last_message
    lastMessageAt := c.last_message_at
    unreadCount := c.unread_count
    protocol := c.protocol.label
    category := effective_category.as_str
    hasOutgoing := c.has_outgoing }

/-- `truncate_message` from `dm.rs` (byte lengths coincide with char
lengths on the ASCII content used here). -/
def truncate_message (content : String) (max_len : Nat) : String :=
  if content.length ≤ max_len then content
  else (content.take max_len) ++ "..."

/-- `DmManager`; `categories_file` holds the path when the manager has
one (the file's content is observed through the write effect returned by
`set_category`). -/
structure DmManager where
  user_pubkey : Option String
  conversations : List (String × DmConversation)
  categories_file : Option String
deriving DecidableEq, Repr

def DmManager.new : DmManager :=
  { user_pubkey := none, conversations := [], categories_file := none }

/-- `DmManager::save_categories`: the write it performs, as
`some (path, serialised non-Regular categories)`, or `none` when no
categories file is configured. -/
def DmManager.save_categories (m : DmManager) : Option (String × List (String × String)) :=
  match m.categories_file with
  | some path =>
    some (path,
      (m.conversations.filter (fun p => p.2.category ≠ ConversationCategory.Regular)).map
        (fun p => (p.1, p.2.category.as_str)))
  | none => none

/-- `DmManager::set_category`: update the stored category and persist,
but only when a conversation for the peer exists; the second component is
the file write performed (`none` = no write). -/
def DmManager.set_category (m : DmManager) (peer_pubkey : String)
    (category : ConversationCategory) :
    DmManager × Option (String × List (String × String)) :=
  match mapLookup m.conversations peer_pubkey with
  | some _ =>
    let m' := { m with
      conversations := mapUpdate m.conversations peer_pubkey
        (fun convo => { convo with category := category }) }
    (m', m'.save_categories)
  | none => (m, none)

def DmManager.get_conversation (m : DmManager) (peer_pubkey : String) :
    Option DmConversation :=
  mapLookup m.conversations peer_pubkey

/-- `DmManager::get_or_create_conversation` (`entry().or_insert_with`). -/
def DmManager.get_or_create_conversation (m : DmManager) (peer_pubkey : String)
    (protocol : DmProtocol) : DmManager :=
  if mapContains m.conversations peer_pubkey then m
  else { m with
    conversations := m.conversations ++ [(peer_pubkey, DmConversation.new peer_pubkey protocol)] }

/-- Comparator of `convo.messages.sort_by(|a, b| a.created_at.cmp(&b.created_at))`. -/
def msgTimeLe (a b : DmMessage) : Prop := a.created_at ≤ b.created_at

instance : DecidableRel msgTimeLe := fun a b => Int.decLe a.created_at b.created_at

instance : IsTotal DmMessage msgTimeLe := ⟨fun a b => Int.le_total a.created_at b.created_at⟩

instance : IsTrans DmMessage msgTimeLe := ⟨fun _ _ _ hab hbc => le_trans hab hbc⟩

/-- Peer key chosen by `DmManager::add_message`. -/
def dmPeer (msg : DmMessage) : String :=
  if msg.is_outgoing then msg.recipient_pubkey else msg.sender_pubkey

/-- First mutation of `add_message` on the target conversation: flag
that we have outgoing messages. -/
def addMsgOutgoingStep (convo : DmConversation) (msg : DmMessage) : DmConversation :=
  if msg.is_outgoing then { convo with has_outgoing := true } else convo

/-- Second mutation of `add_message`: refresh the preview metadata when
the message is newer. -/
def addMsgMetaStep (convo : DmConversation) (msg : DmMessage) : DmConversation :=
  if convo.last_message_at < msg.created_at then
    { convo with
      last_message := some (truncate_message msg.content 50)
      last_message_at := msg.created_at }
  else convo

/-- The in-place mutation `add_message` applies to the target
conversation: flag outgoing, refresh preview metadata, then insert the
message (only if its id is not already present) and re-sort by time.
`Vec::sort_by` is a stable sort; `List.insertionSort` is its extensional
model (no checked property observes the order of equal timestamps). -/
def addMsgToConvo (convo : DmConversation) (msg : DmMessage) : DmConversation :=
  if (addMsgMetaStep (addMsgOutgoingStep convo msg) msg).messages.any
      (fun m => m.id = msg.id) then
    addMsgMetaStep (addMsgOutgoingStep convo msg) msg
  else
    { addMsgMetaStep (addMsgOutgoingStep convo msg) msg with
      messages := List.insertionSort msgTimeLe
        ((addMsgMetaStep (addMsgOutgoingStep convo msg) msg).messages ++ [msg]) }

/-- `DmManager::add_message`. -/
def DmManager.add_message (m : DmManager) (msg : DmMessage) : DmManager :=
  let peer_pubkey := dmPeer msg
  let m1 := m.get_or_create_conversation peer_pubkey msg.protocol
  { m1 with
    conversations := mapUpdate m1.conversations peer_pubkey (fun convo => addMsgToConvo convo msg) }

/-- `DmManager::get_category_counts`:
`(inbox, favorites, unfiltered, regular, archive)`. -/
def DmManager.get_category_counts (m : DmManager) : Int × Int × Int × Int × Int :=
  (m.conversations.map Prod.snd).foldl
    (fun acc c =>
      let (inbox, favorites, unfiltered, regular, archive) := acc
      match c.category with
      | .Favorites => (inbox, favorites + 1, unfiltered, regular, archive)
      | .Archive => (inbox, favorites, unfiltered, regular, archive + 1)
      | .Unfiltered => (inbox, favorites, unfiltered + 1, regular, archive)
      | .Regular =>
        if ¬ c.has_outgoing then (inbox, favorites, unfiltered + 1, regular, archive)
        else (inbox + 1, favorites, unfiltered, regular + 1, archive))
    (0, 0, 0, 0, 0)

/-- Per-conversation invariant checked by the message-list property:
message ids are pairwise distinct and the list is ascending by
`created_at`. -/
def msgsOk (msgs : List DmMessage) : Prop :=
  (msgs.map (fun m => m.id)).Nodup ∧ List.Sorted msgTimeLe msgs

/-! ### `src/nostr/relay.rs` -/

/-- `RelayManager` (the `client` handle itself carries no state any
checked property observes; relay responses reach the fetch functions as
oracle arguments). -/
structure RelayManager where
  connected : Bool
  user_pubkey : Option String
  following : List String
deriving DecidableEq, Repr

def RelayManager.new : RelayManager :=
  { connected := false, user_pubkey := none, following := [] }

/-- `Events::insert`: a set of events deduplicated by id (the `BTreeSet`
ordering of `nostr_sdk::Events` is not observed by any checked
property). -/
def eventsInsert (es : List NostrEvent) (e : NostrEvent) : List NostrEvent :=
  if es.any (fun x => x.id = e.id) then es else es ++ [e]

def eventsInsertAll (es : List NostrEvent) (incoming : List NostrEvent) : List NostrEvent :=
  incoming.foldl eventsInsert es

/-- `RelayManager::connect`: failures to add individual relays are only
logged; the call marks the manager connected and returns `Ok`. -/
def RelayManager.connect (m : RelayManager) : RelayManager × Except String Unit :=
  ({ m with connected := true }, Except.ok ())

/-- `RelayManager::fetch_following_feed`: empty following list short
circuits to an empty feed; otherwise the text-note and repost query
results (`textR`, `repostR`, one oracle per relay-pool query) are merged
with id dedup, a failed query contributing nothing.  Note there is no
check of `connected`. -/
def RelayManager.fetch_following_feed (m : RelayManager) (limit : Nat) (untilTs : Option Int)
    (textR repostR : Except String (List NostrEvent)) : Except String (List NostrEvent) :=
  if m.following = [] then Except.ok []
  else
    let combined : List NostrEvent := []
    let combined := match textR with
      | .ok events => eventsInsertAll combined events
      | .error _ => combined
    let combined := match repostR with
      | .ok events => eventsInsertAll combined events
      | .error _ => combined
    Except.ok combined

/-- `RelayManager::fetch_home_feed`: posts from following, then replies
to the first 50 of them; a failed reply query is absorbed.  No
`connected` check. -/
def RelayManager.fetch_home_feed (m : RelayManager) (limit : Nat) (untilTs : Option Int)
    (postsR repliesR : Except String (List NostrEvent)) : Except String (List NostrEvent) :=
  if m.following = [] then Except.ok []
  else
    match postsR with
    | .error e => Except.error ("Failed to fetch posts: " ++ e)
    | .ok posts =>
      let event_ids := (posts.take 50).map (fun e => e.id)
      let combined := eventsInsertAll [] posts
      if event_ids ≠ [] then
        match repliesR with
        | .ok replies => Except.ok (eventsInsertAll combined replies)
        | .error _ => Except.ok combined
      else Except.ok combined

/-- `RelayManager::fetch_global_feed`: passes the single query result
through.  No `connected` check. -/
def RelayManager.fetch_global_feed (m : RelayManager) (limit : Nat) (untilTs : Option Int)
    (globalR : Except String (List NostrEvent)) : Except String (List NostrEvent) :=
  match globalR with
  | .ok events => Except.ok events
  | .error e => Except.error ("Failed to fetch global feed: " ++ e)

inductive FeedType where
  | Following
  | Replies
  | Global
deriving DecidableEq, Repr

/-- The per-query relay responses available to one bridge-level feed
load. -/
structure FetchOracle where
  text : Except String (List NostrEvent)
  repost : Except String (List NostrEvent)
  posts : Except String (List NostrEvent)
  replies : Except String (List NostrEvent)
  globalFeed : Except String (List NostrEvent)

/-- The feed-loading path of `feed_bridge.rs` (`load_feed` worker body):
the shared `RELAY_MANAGER` is an `Option<RelayManager>` that is `None`
until the login flow has connected and stored a manager; a fetch through
it fails fast when it is `None`. -/
def bridgeLoadFeed (rm : Option RelayManager) (feed : FeedType) (limit : Nat)
    (oracle : FetchOracle) : Except String (List NostrEvent) :=
  match rm with
  | none => Except.error "Relay manager not initialized. Please log in first."
  | some manager =>
    match feed with
    | .Following => manager.fetch_following_feed limit none oracle.text oracle.repost
    | .Replies => manager.fetch_home_feed limit none oracle.posts oracle.replies
    | .Global => manager.fetch_global_feed limit none oracle.globalFeed

/-- Amount-and-multiplier scan of `extract_bolt11_amount`'s character
loop: collect leading digits, stop at the first non-digit, which counts
as a multiplier only when it is one of `m`/`u`/`n`/`p` and at least one
digit was seen. -/
def scanAmount : List Char → List Char → (List Char × Option Char)
  | [], acc => (acc, none)
  | c :: cs, acc =>
    if c.isDigit then scanAmount cs (acc ++ [c])
    else if (c = 'm' ∨ c = 'u' ∨ c = 'n' ∨ c = 'p') ∧ acc ≠ [] then (acc, some c)
    else (acc, none)

/-- Numeric value of a decimal digit character. -/
def digitVal (c : Char) : Nat := c.toNat - 48

/-- `str::parse::<u64>` on a digit string: fails on overflow. -/
def parseU64 (s : List Char) : Option Nat :=
  let n := s.foldl (fun acc d => 10 * acc + digitVal d) 0
  if n < 2 ^ 64 then some n else none

/-- `extract_bolt11_amount` from `relay.rs`.  `u64` multiplication is
taken with release-mode wrapping (`% 2^64`); the checked inputs are far
below overflow. -/
def extract_bolt11_amount (invoice : String) : Option Nat :=
  let invoice_lower := invoice.toList.map Char.toLower
  let start? : Option Nat :=
    if List.isPrefixOf "lnbc".toList invoice_lower then some 4
    else if List.isPrefixOf "lntb".toList invoice_lower then some 4
    else if List.isPrefixOf "lnbcrt".toList invoice_lower then some 6
    else none
  match start? with
  | none => none
  | some start =>
    let rest := invoice_lower.drop start
    let (amount_str, multiplier) := scanAmount rest []
    if amount_str = [] then none
    else
      match parseU64 amount_str with
      | none => none
      | some base_amount =>
        match multiplier with
        | some 'm' => some (base_amount * 100000000 % 2 ^ 64)
        | some 'u' => some (base_amount * 100000 % 2 ^ 64)
        | some 'n' => some (base_amount * 100 % 2 ^ 64)
        | some 'p' => some (base_amount / 10)
        | none => some (base_amount * 100000000000 % 2 ^ 64)
        | some _ => none

/-! ### `src/nostr/zap.rs` -/

/-- `LnurlPayResponse` (`min_sendable`/`max_sendable` in millisats). -/
structure LnurlPayResponse where
  callback : String
  min_sendable : Nat
  max_sendable : Nat
  metadata : String
  allows_nostr : Bool
  nostr_pubkey : Option String
deriving DecidableEq, Repr

/-- The serde view of an HTTP response body: whether it parses as an
`LnurlErrorResponse` (status, reason) and whether it parses as an
`LnurlInvoiceResponse` (the `pr` field). -/
structure HttpBody where
  errorParse : Option (String × String)
  invoiceParse : Option String
deriving DecidableEq, Repr

/-- Outcome of one HTTP GET: transport failure, or a response with its
status text, success flag and body. -/
inductive HttpOutcome where
  | sendFailure (e : String)
  | response (status : String) (statusOk : Bool) (body : HttpBody)
deriving DecidableEq, Repr

/-- `urlencoding::encode`, used for the `nostr=` query parameter; the
encoded text is never inspected by a checked property, so the encoding
itself is a naive percent-free placeholder map. -/
def urlencodeStr (s : String) : String := s

/-- Naive stand-in for `serde_json::to_string(&zap_request)`; its text is
never inspected by a checked property. -/
def eventJson (e : NostrEvent) : String :=
  "zap-request:" ++ e.id

/-- `get_zap_invoice` from `zap.rs`: bounds are validated before the
callback URL is even built; only in-bounds amounts reach the HTTP oracle
`http`. -/
def get_zap_invoice (lnurl_response : LnurlPayResponse) (amount_msats : Nat)
    (zap_request : Option NostrEvent) (http : String → HttpOutcome) :
    Except String String :=
  if amount_msats < lnurl_response.min_sendable then
    Except.error ("Amount " ++ toString amount_msats ++ " msats is below minimum "
      ++ toString lnurl_response.min_sendable ++ " msats")
  else if amount_msats > lnurl_response.max_sendable then
    Except.error ("Amount " ++ toString amount_msats ++ " msats exceeds maximum "
      ++ toString lnurl_response.max_sendable ++ " msats")
  else
    let url := lnurl_response.callback ++ "?amount=" ++ toString amount_msats
    let url :=
      match zap_request with
      | some zap_req =>
        if lnurl_response.allows_nostr then
          url ++ "&nostr=" ++ urlencodeStr (eventJson zap_req)
        else url
      | none => url
    match http url with
    | .sendFailure e => Except.error ("Failed to fetch invoice: " ++ e)
    | .response status statusOk body =>
      if statusOk = false then
        Except.error ("Invoice request failed with status: " ++ status)
      else
        match body.errorParse with
        | some (st, reason) =>
          if st = "ERROR" then Except.error ("LNURL error: " ++ reason)
          else
            match body.invoiceParse with
            | some pr => Except.ok pr
            | none => Except.error "Failed to parse invoice response"
        | none =>
          match body.invoiceParse with
          | some pr => Except.ok pr
          | none => Except.error "Failed to parse invoice response"

/-- `create_zap_request`: event building and signing, with signing
outcome supplied as the oracle `signR`. -/
def create_zap_request (signR : Except String NostrEvent) : Except String NostrEvent :=
  match signR with
  | .ok event => Except.ok event
  | .error e => Except.error ("Failed to sign zap request: " ++ e)

/-- The `zap` saga: resolve (oracle `resolveR`), optionally build and
sign a zap request (oracle `signR`), fetch the invoice, pay (oracle
`payR`).  The sats-to-msats conversion `amount_sats * 1000` is `u64`
arithmetic in the source, so it is taken with release-mode wrapping
(`% 2^64`), as in `extract_bolt11_amount`. -/
def zap (resolveR : Except String LnurlPayResponse) (signR : Except String NostrEvent)
    (amount_sats : Nat) (http : String → HttpOutcome)
    (payR : String → Except String String) : Except String String :=
  match resolveR with
  | .error e => Except.error e
  | .ok lnurl_response =>
    let zapReq : Except String (Option NostrEvent) :=
      if lnurl_response.allows_nostr then
        match create_zap_request signR with
        | .ok event => Except.ok (some event)
        | .error e => Except.error e
      else Except.ok none
    match zapReq with
    | .error e => Except.error e
    | .ok zap_request =>
      match get_zap_invoice lnurl_response (amount_sats * 1000 % 2 ^ 64) zap_request http with
      | .error e => Except.error e
      | .ok invoice => payR invoice

/-! ### `src/nostr/nwc.rs` — URI parsing

The parser is embedded at the character level so that the round-trip
property can be proved for arbitrary component strings. -/

/-- `str::trim` (both-ends whitespace strip). -/
def trimChars (l : List Char) : List Char :=
  ((l.dropWhile Char.isWhitespace).reverse.dropWhile Char.isWhitespace).reverse

/-- `str::strip_prefix`, argument order `(string, pattern)`. -/
def dropPfx : List Char → List Char → Option (List Char)
  | l, [] => some l
  | [], _ :: _ => none
  | c :: cs, p :: ps => if c = p then dropPfx cs ps else none

/-- `str::split_once` / "find the first separator and cut there". -/
def splitFirst (sep : Char) : List Char → Option (List Char × List Char)
  | [] => none
  | c :: cs =>
    if c = sep then some ([], cs)
    else (splitFirst sep cs).map (fun p => (c :: p.1, p.2))

/-- `str::split(sep)`: all segments, empty segments included. -/
def splitAll (sep : Char) : List Char → List (List Char)
  | [] => [[]]
  | c :: cs =>
    let rest := splitAll sep cs
    if c = sep then [] :: rest
    else
      match rest with
      | [] => [[c]]
      | seg :: segs => (c :: seg) :: segs

/-- Inclusive character-range test. -/
def charBetween (lo hi c : Char) : Bool := lo ≤ c ∧ c ≤ hi

/-- Hex digit value (both cases accepted, as by `hex::decode`). -/
def hexVal (c : Char) : Option Nat :=
  if c.isDigit then some (digitVal c)
  else if charBetween 'a' 'f' c then some (c.toNat - 87)
  else if charBetween 'A' 'F' c then some (c.toNat - 55)
  else none

/-- `urlencoding::decode`, restricted to single-byte (ASCII) escapes: a
`%` followed by two hex digits decodes, anything else passes through
unchanged (multi-byte UTF-8 escape sequences are not modelled; no checked
property uses them). -/
def urldecode : List Char → List Char
  | [] => []
  | c :: a :: b :: rest2 =>
    if c = '%' then
      match hexVal a, hexVal b with
      | some ha, some hb => Char.ofNat (16 * ha + hb) :: urldecode rest2
      | _, _ => '%' :: urldecode (a :: b :: rest2)
    else c :: urldecode (a :: b :: rest2)
  | c :: rest => c :: urldecode rest

/-- Canonical lower-casing of a hex string, modelling that
`PublicKey::from_hex`/`SecretKey::from_hex` decode to bytes whose
`to_hex()` form is lowercase. -/
def hexCanon (c : Char) : Char :=
  if charBetween 'A' 'F' c then Char.ofNat (c.toNat + 32) else c

/-- `PublicKey::from_hex`: a 64-digit hex string, held in canonical
lowercase form. -/
def pubkeyFromHex (s : List Char) : Option (List Char) :=
  if s.length = 64 ∧ s.all (fun c => (hexVal c).isSome) then some (s.map hexCanon)
  else none

/-- `PublicKey::from_bech32` fallback.  Bech32 decoding is not embedded:
every checked input is either a hex key (where this branch is never
consulted) or malformed in a way that real bech32 parsing also
rejects. -/
def pubkeyFromBech32 (_s : List Char) : Option (List Char) := none

/-- `SecretKey::from_hex`. -/
def secretKeyFromHex (s : List Char) : Option (List Char) :=
  if s.length = 64 ∧ s.all (fun c => (hexVal c).isSome) then some (s.map hexCanon)
  else none

/-- `NwcConnection` from `nwc.rs` (keys kept in canonical hex form). -/
structure NwcConnection where
  relay_url : List Char
  wallet_pubkey : List Char
  secret : List Char
  lud16 : Option (List Char)
deriving DecidableEq, Repr

/-- The `for param in query.split('&')` accumulation loop of
`NwcConnection::from_uri`: later occurrences of a parameter overwrite
earlier ones; parameters without `=` and unknown keys are skipped.
The relay value is url-decoded (decoding cannot fail in the character
model, so the `?` on `urlencoding::decode` has no error path here). -/
def parseParams :
    List (List Char) → Option (List Char) → Option (List Char) → Option (List Char) →
    Option (List Char) × Option (List Char) × Option (List Char)
  | [], relay_url, secretStr, lud16 => (relay_url, secretStr, lud16)
  | param :: rest, relay_url, secretStr, lud16 =>
    match splitFirst '=' param with
    | some (key, value) =>
      if key = "relay".toList then parseParams rest (some (urldecode value)) secretStr lud16
      else if key = "secret".toList then parseParams rest relay_url (some value) lud16
      else if key = "lud16".toList then parseParams rest relay_url secretStr (some value)
      else parseParams rest relay_url secretStr lud16
    | none => parseParams rest relay_url secretStr lud16

/-- `NwcConnection::from_uri` on the trimmed character sequence. -/
def NwcConnection.fromUriChars (uri0 : List Char) : Except String NwcConnection :=
  let uri := trimChars uri0
  match (dropPfx uri "nostr+walletconnect://".toList).or (dropPfx uri "nostr://".toList) with
  | none => Except.error "Invalid NWC URI scheme"
  | some without_scheme =>
    match splitFirst '?' without_scheme with
    | none => Except.error "Missing query parameters in NWC URI"
    | some (pubkey_str, query) =>
      match (pubkeyFromHex pubkey_str).or (pubkeyFromBech32 pubkey_str) with
      | none => Except.error "Invalid pubkey in NWC URI"
      | some wallet_pubkey =>
        let (relay_url, secretStr, lud16) := parseParams (splitAll '&' query) none none none
        match relay_url with
        | none => Except.error "Missing relay in NWC URI"
        | some relay_url =>
          match secretStr with
          | none => Except.error "Missing secret in NWC URI"
          | some secretStr =>
            match secretKeyFromHex secretStr with
            | none => Except.error "Invalid secret in NWC URI"
            | some secretKey =>
              Except.ok
                { relay_url := relay_url
                  wallet_pubkey := wallet_pubkey
                  secret := secretKey
                  lud16 := lud16 }

/-- `NwcConnection::from_uri`. -/
def NwcConnection.from_uri (uri : String) : Except String NwcConnection :=
  NwcConnection.fromUriChars uri.toList

/-! ### `src/nostr/nwc.rs` — manager state machine -/

inductive NwcState where
  | Disconnected
  | Connecting
  | Connected
  | Error (reason : String)
deriving DecidableEq, Repr

def NwcState.isError : NwcState → Bool
  | .Error _ => true
  | _ => false

/-- `NwcManager` (the `client` handle is modelled by its presence; `keys`
by the secret they are derived from). -/
structure NwcManager where
  connection : Option NwcConnection
  keys : Option (List Char)
  client : Option Unit
  state : NwcState
  balance_sats : Int
deriving DecidableEq, Repr

def NwcManager.new : NwcManager :=
  { connection := none, keys := none, client := none,
    state := NwcState.Disconnected, balance_sats := 0 }

/-- `NwcManager::connect`: sets `Connecting`, parses the URI, adds the
relay (result supplied as oracle `addRelayR`), and on success stores the
connection and sets `Connected`; the trailing initial balance fetch
(oracle `balanceR`, already in sats) only updates the balance on success
and its failure is only logged.  Note the early-error paths return with
the state still `Connecting`. -/
def NwcManager.connect (m : NwcManager) (uri : String)
    (addRelayR : Except String Unit) (balanceR : Except String Int) :
    NwcManager × Except String Unit :=
  let m := { m with state := NwcState.Connecting }
  match NwcConnection.from_uri uri with
  | .error e => (m, Except.error e)
  | .ok connection =>
    match addRelayR with
    | .error e => (m, Except.error ("Failed to add relay: " ++ e))
    | .ok _ =>
      let m := { m with
        keys := some connection.secret
        connection := some connection
        client := some ()
        state := NwcState.Connected }
      let m :=
        match balanceR with
        | .ok b => { m with balance_sats := b }
        | .error _ => m
      (m, Except.ok ())

/-! ### Concrete example states used by witnesses and counterexamples -/

/-- The sixteen characters a canonical (lowercase) hex key is drawn
from. -/
def lowerHexChars : List Char := "0123456789abcdef".toList

def c1exMsg : DmMessage :=
  { id := "m1", sender_pubkey := "peerA", recipient_pubkey := "me",
    content := "hi", created_at := 100, is_outgoing := false, protocol := .Nip17 }

/-- A manager holding one conversation with `peerA`: a single incoming
message, then the user files the conversation under `Favorites`. -/
def c1exManager : DmManager :=
  ((DmManager.new.add_message c1exMsg).set_category "peerA" ConversationCategory.Favorites).1

def c1exConvo : DmConversation :=
  match mapLookup c1exManager.conversations "peerA" with
  | some convo => convo
  | none => DmConversation.new "" DmProtocol.Nip04

def c2exEvent : NostrEvent :=
  { id := "e1", pubkey := "pk1", kind := 1, created_at := 10, content := "hello", tags := [] }

/-- Distinct profile pubkeys (distinguished by length). -/
def floodKey (i : Nat) : String := String.mk (List.replicate i 'a')

def floodProfile (i : Nat) : CachedProfile :=
  { pubkey := floodKey i, name := none, display_name := none, picture := none,
    nip05 := none, about := none, cached_at := 0, last_fetched := 0 }

/-- `n` profile ingests with pairwise distinct pubkeys, starting from the
fresh cache. -/
def flood (n : Nat) : MemoryCache :=
  (List.range n).foldl (fun c i => c.insert_profile (floodProfile i)) MemoryCache.new

def c3exCached : CachedEvent :=
  { id := "e3", pubkey := "pk3", content := "x", kind := 1, created_at := 3,
    tags_json := "[]", cached_at := 0 }

def c4exEvent : NostrEvent :=
  { id := "g1", pubkey := "pk2", kind := 1, created_at := 20, content := "note", tags := [] }

def c5exGoodUri : String :=
  "nostr+walletconnect://aaaaaaaaaaaaaaaaaaaaaaaaaaaaaaaaaaaaaaaaaaaaaaaaaaaaaaaaaaaaaaaa?relay=wss://relay.example.com&secret=bbbbbbbbbbbbbbbbbbbbbbbbbbbbbbbbbbbbbbbbbbbbbbbbbbbbbbbbbbbbbbbb"

def c6exX : List Char := List.replicate 64 'a'

def c6exR : List Char := "wss://relay.example.com".toList

def c6exS : List Char := List.replicate 64 'b'

/-- `scheme://X?relay=R&secret=S`, assembled from its components. -/
def mkNwcUri (x r s : List Char) : List Char :=
  "nostr+walletconnect://".toList ++
    (x ++ ('?' :: ("relay=".toList ++ (r ++ ('&' :: ("secret=".toList ++ s))))))

/-- Same URI but with the `secret` parameter missing. -/
def mkNwcUriNoSecret (x r : List Char) : List Char :=
  "nostr+walletconnect://".toList ++ (x ++ ('?' :: ("relay=".toList ++ r)))

/-- Same URI but with the `relay` parameter missing. -/
def mkNwcUriNoRelay (x s : List Char) : List Char :=
  "nostr+walletconnect://".toList ++ (x ++ ('?' :: ("secret=".toList ++ s)))

/-- Same URI but with the pubkey missing. -/
def mkNwcUriNoPubkey (r s : List Char) : List Char :=
  "nostr+walletconnect://".toList ++
    ('?' :: ("relay=".toList ++ (r ++ ('&' :: ("secret=".toList ++ s)))))

def c8exResponse : LnurlPayResponse :=
  { callback := "https://pay.example.com/cb", min_sendable := 1000, max_sendable := 10000,
    metadata := "", allows_nostr := false, nostr_pubkey := none }

def c8exHttp : String → HttpOutcome := fun _ => HttpOutcome.sendFailure "offline"

def c8exHttp2 : String → HttpOutcome :=
  fun _ => HttpOutcome.response "200 OK" true { errorParse := none, invoiceParse := some "lnbc1m" }

def c8exSigned : NostrEvent :=
  { id := "z1", pubkey := "pk3", kind := 9734, created_at := 30, content := "", tags := [] }

def c9exMsg : DmMessage :=
  { id := "m9", sender_pubkey := "me", recipient_pubkey := "peerB",
    content := "yo", created_at := 7, is_outgoing := true, protocol := .Nip04 }

def c9exConvo : DmConversation :=
  match mapLookup (DmManager.new.add_message c9exMsg).conversations (dmPeer c9exMsg) with
  | some convo => convo
  | none => DmConversation.new "" DmProtocol.Nip04

def c10exMsg : DmMessage :=
  { id := "m10", sender_pubkey := "alice", recipient_pubkey := "me",
    content := "hey", created_at := 5, is_outgoing := false, protocol := .Nip17 }

/-- A manager that has a conversation with `alice` and none with
`bob`. -/
def c10exManager : DmManager := DmManager.new.add_message c10exMsg

/-! ## Helper lemmas about the association-list map model -/

theorem mapLookup_mapInsert_self {α : Type} (m : List (String × α)) (k : String) (v : α) :
    mapLookup (mapInsert m k v) k = some v := by
  induction m with
  | nil => simp [mapInsert, mapLookup]
  | cons p rest ih =>
    obtain ⟨k', w⟩ := p
    by_cases h : k' = k
    · subst h
      simp [mapInsert, mapLookup]
    · simp [mapInsert, mapLookup, h, ih]

theorem mapLookup_mapInsert_ne {α : Type} (m : List (String × α)) (k q : String) (v : α)
    (h : q ≠ k) : mapLookup (mapInsert m k v) q = mapLookup m q := by
  induction m with
  | nil => simp [mapInsert, mapLookup, Ne.symm h]
  | cons p rest ih =>
    obtain ⟨k', w⟩ := p
    by_cases hk : k' = k
    · subst hk
      simp [mapInsert, mapLookup, Ne.symm h]
    · by_cases hq : k' = q
      · subst hq
        simp [mapInsert, mapLookup, hk]
      · simp [mapInsert, mapLookup, hk, hq, ih]

theorem mapContains_eq_mem_keys {α : Type} (m : List (String × α)) (k : String) :
    mapContains m k = true ↔ k ∈ m.map Prod.fst := by
  induction m with
  | nil => simp [mapContains, mapLookup]
  | cons p rest ih =>
    obtain ⟨k', w⟩ := p
    by_cases h : k' = k
    · subst h
      simp [mapContains, mapLookup]
    · simp only [mapContains, mapLookup, if_neg h, List.map_cons, List.mem_cons] at ih ⊢
      rw [ih]
      constructor
      · exact Or.inr
      · rintro (hc | hc)
        · exact absurd hc.symm h
        · exact hc

theorem mapInsert_of_fresh {α : Type} (m : List (String × α)) (k : String) (v : α)
    (h : mapContains m k = false) : mapInsert m k v = m ++ [(k, v)] := by
  induction m with
  | nil => simp [mapInsert]
  | cons p rest ih =>
    obtain ⟨k', w⟩ := p
    by_cases hk : k' = k
    · subst hk
      simp [mapContains, mapLookup] at h
    · have h2 : mapContains rest k = false := by
        simpa [mapContains, mapLookup, hk] using h
      simp [mapInsert, hk, ih h2]

theorem length_mapInsert_of_contains {α : Type} (m : List (String × α)) (k : String) (v : α)
    (h : mapContains m k = true) : (mapInsert m k v).length = m.length := by
  induction m with
  | nil => simp [mapContains, mapLookup] at h
  | cons p rest ih =>
    obtain ⟨k', w⟩ := p
    by_cases hk : k' = k
    · subst hk
      simp [mapInsert]
    · have h2 : mapContains rest k = true := by
        simpa [mapContains, mapLookup, hk] using h
      simp [mapInsert, hk, ih h2]

theorem length_mapInsert_of_fresh {α : Type} (m : List (String × α)) (k : String) (v : α)
    (h : mapContains m k = false) : (mapInsert m k v).length = m.length + 1 := by
  rw [mapInsert_of_fresh m k v h]
  simp

theorem keys_mapInsert_of_contains {α : Type} (m : List (String × α)) (k : String) (v : α)
    (h : mapContains m k = true) : (mapInsert m k v).map Prod.fst = m.map Prod.fst := by
  induction m with
  | nil => simp [mapContains, mapLookup] at h
  | cons p rest ih =>
    obtain ⟨k', w⟩ := p
    by_cases hk : k' = k
    · subst hk
      simp [mapInsert]
    · have h2 : mapContains rest k = true := by
        simpa [mapContains, mapLookup, hk] using h
      simp [mapInsert, hk, ih h2]

theorem mapLookup_mapRemove_ne {α : Type} (m : List (String × α)) (k q : String)
    (h : q ≠ k) : mapLookup (mapRemove m k) q = mapLookup m q := by
  induction m with
  | nil => simp [mapRemove]
  | cons p rest ih =>
    obtain ⟨k', w⟩ := p
    by_cases hk : k' = k
    · subst hk
      simp [mapRemove, mapLookup, Ne.symm h]
    · by_cases hq : k' = q
      · subst hq
        simp [mapRemove, mapLookup, hk]
      · simp [mapRemove, mapLookup, hk, hq, ih]

theorem mapContains_mapRemove_self {α : Type} (m : List (String × α)) (k : String)
    (hnd : (m.map Prod.fst).Nodup) : mapContains (mapRemove m k) k = false := by
  induction m with
  | nil => simp [mapRemove, mapContains, mapLookup]
  | cons p rest ih =>
    obtain ⟨k', w⟩ := p
    simp only [List.map_cons, List.nodup_cons] at hnd
    by_cases hk : k' = k
    · subst hk
      simp only [mapRemove, if_pos rfl]
      rw [Bool.eq_false_iff]
      intro hc
      exact hnd.1 ((mapContains_eq_mem_keys rest k').mp hc)
    · have h2 := ih hnd.2
      simp only [mapRemove, if_neg hk]
      simpa [mapContains, mapLookup, hk] using h2

theorem length_mapRemove_of_contains {α : Type} (m : List (String × α)) (k : String)
    (h : mapContains m k = true) : (mapRemove m k).length + 1 = m.length := by
  induction m with
  | nil => simp [mapContains, mapLookup] at h
  | cons p rest ih =>
    obtain ⟨k', w⟩ := p
    by_cases hk : k' = k
    · subst hk
      simp [mapRemove]
    · have h2 : mapContains rest k = true := by
        simpa [mapContains, mapLookup, hk] using h
      simp [mapRemove, hk, ih h2]

theorem keys_mapRemove_sublist {α : Type} (m : List (String × α)) (k : String) :
    ((mapRemove m k).map Prod.fst).Sublist (m.map Prod.fst) := by
  induction m with
  | nil => simp [mapRemove]
  | cons p rest ih =>
    obtain ⟨k', w⟩ := p
    by_cases hk : k' = k
    · subst hk
      simp only [mapRemove, if_pos rfl, List.map_cons]
      exact List.sublist_cons_self _ _
    · simp only [mapRemove, if_neg hk, List.map_cons]
      exact ih.cons₂ _

theorem mapLookup_mapUpdate_self {α : Type} (m : List (String × α)) (k : String)
    (upd : α → α) : mapLookup (mapUpdate m k upd) k = (mapLookup m k).map upd := by
  induction m with
  | nil => simp [mapUpdate, mapLookup]
  | cons p rest ih =>
    obtain ⟨k', w⟩ := p
    by_cases hk : k' = k
    · subst hk
      simp [mapUpdate, mapLookup]
    · simp [mapUpdate, mapLookup, hk, ih]

theorem mapLookup_mapUpdate_ne {α : Type} (m : List (String × α)) (k q : String)
    (upd : α → α) (h : q ≠ k) : mapLookup (mapUpdate m k upd) q = mapLookup m q := by
  induction m with
  | nil => simp [mapUpdate]
  | cons p rest ih =>
    obtain ⟨k', w⟩ := p
    by_cases hk : k' = k
    · subst hk
      simp [mapUpdate, mapLookup, Ne.symm h]
    · by_cases hq : k' = q
      · subst hq
        simp [mapUpdate, mapLookup, hk]
      · simp [mapUpdate, mapLookup, hk, hq, ih]

theorem mem_mapUpdate {α : Type} (m : List (String × α)) (k : String) (upd : α → α)
    (p : String × α) (hp : p ∈ mapUpdate m k upd) :
    p ∈ m ∨ ∃ w, p = (k, upd w) ∧ (k, w) ∈ m := by
  induction m with
  | nil => simp [mapUpdate] at hp
  | cons q rest ih =>
    obtain ⟨k', w⟩ := q
    by_cases hk : k' = k
    · subst hk
      simp only [mapUpdate, if_pos, List.mem_cons] at hp
      rcases hp with h1 | h1
      · exact Or.inr ⟨w, h1, List.mem_cons_self _ _⟩
      · exact Or.inl (List.mem_cons_of_mem _ h1)
    · simp only [mapUpdate, if_neg hk, List.mem_cons] at hp
      rcases hp with h1 | h1
      · exact Or.inl (h1 ▸ List.mem_cons_self _ _)
      · rcases ih h1 with h2 | ⟨w', hw⟩
        · exact Or.inl (List.mem_cons_of_mem _ h2)
        · exact Or.inr ⟨w', hw.1, List.mem_cons_of_mem _ hw.2⟩

/-! ## Claim C2: double ingest of one event id -/

theorem has_event_insert_event (c : MemoryCache) (ev : CachedEvent) :
    (c.insert_event ev).has_event ev.id = true := by
  unfold MemoryCache.insert_event MemoryCache.has_event
  simp [mapContains, mapLookup_mapInsert_self]

/-- Claim C2: ingesting an event whose id the memory cache has not seen
returns `true`; an immediate second ingest of the same event returns
`false` and leaves the whole manager — in particular the memory tier's
event count and the durable tier's id set — exactly unchanged, so no
duplicate entry is created. -/
theorem c2_ingest_event_idempotent (m : NostrDbManager) (e : NostrEvent) (now1 now2 : Nat)
    (h : m.memory_cache.has_event e.id = false) :
    (m.ingest_event e now1).2 = true ∧
    (m.ingest_event e now1).1.ingest_event e now2 = ((m.ingest_event e now1).1, false) := by
  have hfirst : m.ingest_event e now1 =
      ({ ndb := ndbProcessEvent m.ndb e.id,
         memory_cache := m.memory_cache.insert_event (ingestCached e now1) }, true) := by
    simp [NostrDbManager.ingest_event, h]
  have h1 : (MemoryCache.insert_event m.memory_cache (ingestCached e now1)).has_event e.id
      = true :=
    has_event_insert_event m.memory_cache (ingestCached e now1)
  constructor
  · rw [hfirst]
  · rw [hfirst]
    simp [NostrDbManager.ingest_event, h1]

/-- Witness for C2 at a concrete fresh manager and event. -/
theorem c2_ingest_event_idempotent_witness :
    (NostrDbManager.new.ingest_event c2exEvent 0).2 = true ∧
    (NostrDbManager.new.ingest_event c2exEvent 0).1.ingest_event c2exEvent 1 =
      ((NostrDbManager.new.ingest_event c2exEvent 0).1, false) :=
  c2_ingest_event_idempotent NostrDbManager.new c2exEvent 0 1 (by decide)

/-! ## Claim C3: cache tier bounds -/

theorem mapContains_mapInsert_self {α : Type} (m : List (String × α)) (k : String) (v : α) :
    mapContains (mapInsert m k v) k = true := by
  simp [mapContains, mapLookup_mapInsert_self]

theorem mapContains_mapInsert_ne {α : Type} (m : List (String × α)) (k q : String) (v : α)
    (h : q ≠ k) : mapContains (mapInsert m k v) q = mapContains m q := by
  simp [mapContains, mapLookup_mapInsert_ne m k q v h]

theorem mapContains_mapRemove_ne {α : Type} (m : List (String × α)) (k q : String)
    (h : q ≠ k) : mapContains (mapRemove m k) q = mapContains m q := by
  simp [mapContains, mapLookup_mapRemove_ne m k q h]

theorem cacheInv_new : CacheInv MemoryCache.new := by
  refine ⟨List.nodup_nil, List.nodup_nil, ?_⟩
  intro id
  simp [MemoryCache.new, mapContains, mapLookup]

/-- The eviction prelude of `insert_event` preserves the cache
invariant. -/
theorem cacheInv_evict (c : MemoryCache) (oldest : String) (rest : List String)
    (hinv : CacheInv c) (horder : c.event_order = oldest :: rest) :
    CacheInv { c with events := mapRemove c.events oldest, event_order := rest } := by
  obtain ⟨hknd, hond, hmem⟩ := hinv
  rw [horder] at hond hmem
  simp only [List.nodup_cons] at hond
  refine ⟨(keys_mapRemove_sublist c.events oldest).nodup hknd, hond.2, ?_⟩
  intro id
  by_cases hid : id = oldest
  · subst hid
    rw [mapContains_mapRemove_self c.events id hknd]
    simp [hond.1]
  · rw [mapContains_mapRemove_ne c.events oldest id hid]
    rw [hmem id]
    simp [hid]

/-- The tail of `insert_event` (LRU reorder plus map insert) preserves
the cache invariant. -/
theorem cacheInv_insert_tail (c : MemoryCache) (id : String) (e : CachedEvent)
    (hinv : CacheInv c) :
    CacheInv { c with
      events := mapInsert c.events id e,
      event_order := (c.event_order.erase id) ++ [id] } := by
  obtain ⟨hknd, hond, hmem⟩ := hinv
  constructor
  · by_cases hc : mapContains c.events id = true
    · rw [keys_mapInsert_of_contains c.events id e hc]
      exact hknd
    · rw [mapInsert_of_fresh c.events id e (Bool.eq_false_iff.mpr hc)]
      have hid : id ∉ c.events.map Prod.fst := fun hm =>
        hc ((mapContains_eq_mem_keys c.events id).mpr hm)
      simp [List.nodup_append, hknd, hid]
  refine ⟨?_, ?_⟩
  · have h1 : (c.event_order.erase id).Nodup := hond.erase id
    have h2 : id ∉ c.event_order.erase id := fun hm =>
      ((hond.mem_erase_iff).mp hm).1 rfl
    simp [List.nodup_append, h1, h2]
  · intro x
    by_cases hx : x = id
    · subst hx
      rw [mapContains_mapInsert_self]
      simp
    · rw [mapContains_mapInsert_ne c.events id x e hx]
      rw [hmem x]
      simp only [List.mem_append, List.mem_singleton, hx, or_false]
      constructor
      · intro hm
        exact (List.mem_erase_of_ne hx).mpr hm
      · intro hm
        exact (List.mem_erase_of_ne hx).mp hm

/-- Claim C3 (amended): the event tier is bounded — `insert_event`
preserves the invariant and the 1000-entry bound, and at capacity it
evicts the oldest (front-of-order) entry when a fresh id arrives; the
profile tier however is unbounded — `insert_profile` of a fresh pubkey
always grows it by one, with no eviction. -/
theorem c3_cache_bounds_amended (c : MemoryCache) (e : CachedEvent) (p : CachedProfile) :
    (CacheInv c → c.events.length ≤ MAX_MEMORY_CACHE_SIZE →
      CacheInv (c.insert_event e) ∧
        (c.insert_event e).events.length ≤ MAX_MEMORY_CACHE_SIZE) ∧
    (CacheInv c → c.events.length = MAX_MEMORY_CACHE_SIZE →
      mapContains c.events e.id = false →
      ∀ oldest rest, c.event_order = oldest :: rest →
        mapContains (c.insert_event e).events oldest = false) ∧
    (mapContains c.profiles p.pubkey = false →
      (c.insert_profile p).profiles.length = c.profiles.length + 1) := by
  refine ⟨?_, ?_, ?_⟩
  · intro hinv hlen
    by_cases hcond : c.events.length ≥ MAX_MEMORY_CACHE_SIZE ∧ mapContains c.events e.id = false
    · -- at capacity with a fresh id: evict, then insert
      have hlen1000 : c.events.length = MAX_MEMORY_CACHE_SIZE := le_antisymm hlen hcond.1
      have hne : c.events ≠ [] := by
        intro hnil
        rw [hnil] at hlen1000
        simp [MAX_MEMORY_CACHE_SIZE] at hlen1000
      obtain ⟨q, rest0, hq⟩ := List.exists_cons_of_ne_nil hne
      have hqmem : q.1 ∈ c.events.map Prod.fst := by
        rw [hq]; simp
      have hqcont : mapContains c.events q.1 = true :=
        (mapContains_eq_mem_keys c.events q.1).mpr hqmem
      have hqorder : q.1 ∈ c.event_order := (hinv.2.2 q.1).mp hqcont
      have horderne : c.event_order ≠ [] := by
        intro hnil
        rw [hnil] at hqorder
        exact List.not_mem_nil _ hqorder
      obtain ⟨oldest, rest, horder⟩ := List.exists_cons_of_ne_nil horderne
      have hevict : c.evictStep e.id =
          { c with events := mapRemove c.events oldest, event_order := rest } := by
        unfold MemoryCache.evictStep
        rw [if_pos hcond, horder]
        rfl
      have hinv1 := cacheInv_evict c oldest rest hinv horder
      have holdcont : mapContains c.events oldest = true :=
        (hinv.2.2 oldest).mpr (by rw [horder]; simp)
      have hremlen : (mapRemove c.events oldest).length + 1 = c.events.length :=
        length_mapRemove_of_contains c.events oldest holdcont
      have hfinal := cacheInv_insert_tail
        { c with events := mapRemove c.events oldest, event_order := rest } e.id e hinv1
      have hne2 : e.id ≠ oldest := by
        intro heq
        rw [heq] at hcond
        rw [holdcont] at hcond
        exact absurd hcond.2 (by simp)
      have hstillfresh : mapContains (mapRemove c.events oldest) e.id = false := by
        rw [mapContains_mapRemove_ne c.events oldest e.id hne2]
        exact hcond.2
      have hinslen : (mapInsert (mapRemove c.events oldest) e.id e).length
          = (mapRemove c.events oldest).length + 1 :=
        length_mapInsert_of_fresh _ _ _ hstillfresh
      have hce : c.insert_event e = { c with
          events := mapInsert (mapRemove c.events oldest) e.id e,
          event_order := (rest.erase e.id) ++ [e.id] } := by
        unfold MemoryCache.insert_event
        rw [hevict]
      constructor
      · rw [hce]
        exact hfinal
      · rw [hce]
        simp only [hinslen]
        omega
    · -- not at capacity, or the id is already cached: no eviction
      have hevict : c.evictStep e.id = c := by
        unfold MemoryCache.evictStep
        rw [if_neg hcond]
      have hce : c.insert_event e = { c with
          events := mapInsert c.events e.id e,
          event_order := (c.event_order.erase e.id) ++ [e.id] } := by
        unfold MemoryCache.insert_event
        rw [hevict]
      have hfinal := cacheInv_insert_tail c e.id e hinv
      refine ⟨by rw [hce]; exact hfinal, ?_⟩
      rw [hce]
      by_cases hc2 : mapContains c.events e.id = true
      · simp only [length_mapInsert_of_contains c.events e.id e hc2]
        exact hlen
      · have hfresh : mapContains c.events e.id = false := Bool.eq_false_iff.mpr hc2
        have hlt : c.events.length < MAX_MEMORY_CACHE_SIZE := by
          rcases Nat.lt_or_ge c.events.length MAX_MEMORY_CACHE_SIZE with h | h
          · exact h
          · exact absurd ⟨h, hfresh⟩ hcond
        simp only [length_mapInsert_of_fresh c.events e.id e hfresh]
        omega
  · intro hinv hlen hfresh oldest rest horder
    have hcond : c.events.length ≥ MAX_MEMORY_CACHE_SIZE ∧ mapContains c.events e.id = false :=
      ⟨le_of_eq hlen.symm, hfresh⟩
    have holdcont : mapContains c.events oldest = true :=
      (hinv.2.2 oldest).mpr (by rw [horder]; simp)
    have hne2 : oldest ≠ e.id := by
      intro heq
      rw [heq] at holdcont
      rw [holdcont] at hfresh
      exact absurd hfresh (by simp)
    have hevict : c.evictStep e.id =
        { c with events := mapRemove c.events oldest, event_order := rest } := by
      unfold MemoryCache.evictStep
      rw [if_pos hcond, horder]
      rfl
    have hce : c.insert_event e = { c with
        events := mapInsert (mapRemove c.events oldest) e.id e,
        event_order := (rest.erase e.id) ++ [e.id] } := by
      unfold MemoryCache.insert_event
      rw [hevict]
    rw [hce]
    simp only
    rw [mapContains_mapInsert_ne _ e.id oldest e hne2]
    exact mapContains_mapRemove_self c.events oldest hinv.1
  · intro hfresh
    unfold MemoryCache.insert_profile
    simp only
    exact length_mapInsert_of_fresh c.profiles p.pubkey p hfresh

/-- The profile-flood cache has exactly the `n` distinct pubkeys that were
inserted: no eviction ever happens on the profile tier. -/
theorem flood_profiles_keys (n : Nat) :
    (flood n).profiles.map Prod.fst = (List.range n).map floodKey := by
  induction n with
  | zero => simp [flood, MemoryCache.new]
  | succ n ih =>
    have hstep : flood (n + 1) = (flood n).insert_profile (floodProfile n) := by
      unfold flood
      rw [List.range_succ, List.foldl_append]
      simp
    have hfreshmem : floodKey n ∉ (List.range n).map floodKey := by
      intro hm
      obtain ⟨i, hi, hkey⟩ := List.mem_map.mp hm
      have hrep : List.replicate i 'a' = List.replicate n 'a' := congrArg String.data hkey
      have hlen : i = n := by
        have := congrArg List.length hrep
        simpa using this
      rw [hlen] at hi
      exact absurd (List.mem_range.mp hi) (lt_irrefl n)
    have hfresh : mapContains (flood n).profiles (floodKey n) = false := by
      rw [Bool.eq_false_iff]
      intro hc
      have := (mapContains_eq_mem_keys _ _).mp hc
      rw [ih] at this
      exact hfreshmem this
    rw [hstep]
    unfold MemoryCache.insert_profile
    simp only
    have hpk : (floodProfile n).pubkey = floodKey n := rfl
    rw [hpk, mapInsert_of_fresh _ _ _ hfresh, List.map_append, ih, List.range_succ,
      List.map_append]
    simp

/-- Counterexample to C3 as stated: after 300 profile ingests with
distinct pubkeys the profile tier holds 300 entries, well past the
claimed ~256 bound — the profile tier is not bounded at all. -/
theorem c3_cache_bounds_cex : 256 < (flood 300).profiles.length := by
  have h := congrArg List.length (flood_profiles_keys 300)
  simp only [List.length_map, List.length_range] at h
  omega

/-- Witness for C3 (amended) at the empty cache. -/
theorem c3_cache_bounds_witness :
    (MemoryCache.new.insert_event c3exCached).events.length ≤ MAX_MEMORY_CACHE_SIZE ∧
    (MemoryCache.new.insert_profile (floodProfile 0)).profiles.length =
      MemoryCache.new.profiles.length + 1 :=
  ⟨((c3_cache_bounds_amended MemoryCache.new c3exCached (floodProfile 0)).1
      cacheInv_new (by decide)).2,
   (c3_cache_bounds_amended MemoryCache.new c3exCached (floodProfile 0)).2.2 (by decide)⟩

/-! ## Claim C1: effective conversation category -/

/-- Counterexample to C1 as stated: the conversation with `peerA` has no
outgoing message at all, yet because its stored category is `Favorites`
(not `Regular`) its `to_json` reports `"favorites"`, not
`"unfiltered"`. -/
theorem c1_effective_category_cex :
    c1exConvo.has_outgoing = false ∧
    c1exConvo.messages.filter (fun m => m.is_outgoing) = [] ∧
    c1exConvo.to_json.category = "favorites" ∧
    ("favorites" : String) ≠ "unfiltered" := by
  refine ⟨by decide, by decide, by decide, by decide⟩

/-- Claim C1 (amended): `to_json` reports the effective category as
follows — a conversation with no outgoing messages is reported as
`"unfiltered"` only when its stored category is `Regular` (the default);
once it has an outgoing message its stored category is reported; and a
non-`Regular` stored category is always reported as stored, regardless of
outgoing messages. -/
theorem c1_effective_category_amended (c : DmConversation) :
    (c.has_outgoing = false → c.category = ConversationCategory.Regular →
      c.to_json.category = "unfiltered") ∧
    (c.has_outgoing = true → c.to_json.category = c.category.as_str) ∧
    (c.category ≠ ConversationCategory.Regular →
      c.to_json.category = c.category.as_str) := by
  unfold DmConversation.to_json
  refine ⟨?_, ?_, ?_⟩
  · intro ho hc
    simp [ho, hc, ConversationCategory.as_str]
  · intro ho
    simp [ho]
  · intro hc
    simp [hc]

/-- Witness for C1 (amended) on the concrete favorites conversation. -/
theorem c1_effective_category_witness :
    c1exConvo.to_json.category = ConversationCategory.Favorites.as_str :=
  (c1_effective_category_amended c1exConvo).2.2 (by decide)

/-! ## Claim C10: set_category on an absent peer -/

/-- Claim C10: `set_category` for a peer with no conversation is a
silent no-op — the manager is unchanged and no categories file write
happens; and for any `set_category` call, every conversation keyed by a
different peer is untouched. -/
theorem c10_set_category_frame (m : DmManager) (peer q : String)
    (cat : ConversationCategory) :
    (mapLookup m.conversations peer = none → m.set_category peer cat = (m, none)) ∧
    (q ≠ peer →
      mapLookup (m.set_category peer cat).1.conversations q = mapLookup m.conversations q) := by
  constructor
  · intro h
    unfold DmManager.set_category
    rw [h]
  · intro hq
    unfold DmManager.set_category
    cases hl : mapLookup m.conversations peer with
    | none => rfl
    | some convo =>
      simp only
      exact mapLookup_mapUpdate_ne m.conversations peer q _ hq

/-- Witness for C10: `bob` has no conversation, so filing him is a
no-op; filing `alice` leaves the (absent) conversation of `zed`
untouched. -/
theorem c10_set_category_frame_witness :
    c10exManager.set_category "bob" ConversationCategory.Archive = (c10exManager, none) ∧
    mapLookup (c10exManager.set_category "alice" ConversationCategory.Archive).1.conversations
        "zed" = mapLookup c10exManager.conversations "zed" :=
  ⟨(c10_set_category_frame c10exManager "bob" "zed" ConversationCategory.Archive).1 (by decide),
   (c10_set_category_frame c10exManager "alice" "zed" ConversationCategory.Archive).2 (by decide)⟩

/-! ## Claim C9: message lists stay sorted and duplicate-free -/

theorem addMsgSteps_messages (convo : DmConversation) (msg : DmMessage) :
    (addMsgMetaStep (addMsgOutgoingStep convo msg) msg).messages = convo.messages := by
  unfold addMsgMetaStep addMsgOutgoingStep
  by_cases h1 : msg.is_outgoing <;> simp [h1] <;> split <;> simp

theorem addMsgToConvo_messages (convo : DmConversation) (msg : DmMessage) :
    (addMsgToConvo convo msg).messages =
      if convo.messages.any (fun m => m.id = msg.id) then convo.messages
      else List.insertionSort msgTimeLe (convo.messages ++ [msg]) := by
  unfold addMsgToConvo
  have hm := addMsgSteps_messages convo msg
  by_cases hc : convo.messages.any (fun m => m.id = msg.id) = true
  · rw [if_pos (by rw [hm]; exact hc), if_pos hc, hm]
  · rw [if_neg (by rw [hm]; exact hc), if_neg hc]
    simp [hm]

theorem msgsOk_insert (msgs : List DmMessage) (msg : DmMessage)
    (hok : msgsOk msgs) (hfresh : msgs.any (fun mm => mm.id = msg.id) = false) :
    msgsOk (List.insertionSort msgTimeLe (msgs ++ [msg])) := by
  constructor
  · have hperm : (List.insertionSort msgTimeLe (msgs ++ [msg])).Perm (msgs ++ [msg]) :=
      List.perm_insertionSort msgTimeLe (msgs ++ [msg])
    have hmap := hperm.map (fun mm => mm.id)
    rw [hmap.nodup_iff]
    have hnotmem : msg.id ∉ msgs.map (fun mm => mm.id) := by
      intro hmem
      obtain ⟨mm, hmm, hid⟩ := List.mem_map.mp hmem
      have := List.any_eq_false.mp hfresh mm hmm
      simp [hid] at this
    simp [List.nodup_append, hok.1, hnotmem]
  · exact List.sorted_insertionSort msgTimeLe (msgs ++ [msg])

/-- Claim C9: if every conversation's message list has pairwise-distinct
ids and is sorted ascending by `created_at`, then after any `add_message`
this still holds for every conversation; moreover a message whose id is
already present in the target conversation is not inserted (the message
list is left exactly as it was). -/
theorem c9_add_message_sorted_nodup (m : DmManager) (msg : DmMessage)
    (hall : ∀ p ∈ m.conversations, msgsOk p.2.messages) :
    (∀ p ∈ (m.add_message msg).conversations, msgsOk p.2.messages) ∧
    (∀ convo, mapLookup m.conversations (dmPeer msg) = some convo →
      convo.messages.any (fun mm => mm.id = msg.id) = true →
      ∃ convo2, mapLookup (m.add_message msg).conversations (dmPeer msg) = some convo2 ∧
        convo2.messages = convo.messages) := by
  have hall1 : ∀ p ∈ (m.get_or_create_conversation (dmPeer msg) msg.protocol).conversations,
      msgsOk p.2.messages := by
    intro p hp
    unfold DmManager.get_or_create_conversation at hp
    by_cases hc : mapContains m.conversations (dmPeer msg) = true
    · rw [if_pos hc] at hp
      exact hall p hp
    · rw [if_neg hc] at hp
      simp only [List.mem_append, List.mem_singleton] at hp
      rcases hp with hp | hp
      · exact hall p hp
      · subst hp
        constructor
        · simp [DmConversation.new]
        · simp [DmConversation.new, List.Sorted]
  have hconvoOk : ∀ w : DmConversation, msgsOk w.messages →
      msgsOk (addMsgToConvo w msg).messages := by
    intro w hw
    rw [addMsgToConvo_messages]
    by_cases hc : w.messages.any (fun mm => mm.id = msg.id) = true
    · rw [if_pos hc]
      exact hw
    · rw [if_neg hc]
      exact msgsOk_insert w.messages msg hw (Bool.eq_false_iff.mpr hc)
  constructor
  · intro p hp
    unfold DmManager.add_message at hp
    simp only at hp
    rcases mem_mapUpdate _ _ _ p hp with hmem | ⟨w, hpw, hwmem⟩
    · exact hall1 p hmem
    · subst hpw
      exact hconvoOk w (hall1 (dmPeer msg, w) hwmem)
  · intro convo hlook hdup
    have hcont : mapContains m.conversations (dmPeer msg) = true := by
      simp [mapContains, hlook]
    have hsame : m.get_or_create_conversation (dmPeer msg) msg.protocol = m := by
      unfold DmManager.get_or_create_conversation
      rw [if_pos hcont]
    refine ⟨addMsgToConvo convo msg, ?_, ?_⟩
    · unfold DmManager.add_message
      simp only [hsame]
      rw [mapLookup_mapUpdate_self, hlook]
      rfl
    · rw [addMsgToConvo_messages, if_pos hdup]

/-- Witness for C9: adding a first outgoing message to an empty manager
yields a conversation whose message list satisfies the invariant. -/
theorem c9_add_message_sorted_nodup_witness : msgsOk c9exConvo.messages := by
  have h := c9_add_message_sorted_nodup DmManager.new c9exMsg
    (by intro p hp; exact absurd hp (List.not_mem_nil p))
  exact h.1 (dmPeer c9exMsg, c9exConvo) (by decide)

/-! ## Claim C4: "not connected" fail-fast -/

/-- Counterexample to C4 as stated: a freshly created relay manager on
which `connect`/`connect_to` was never called (`connected = false`) does
not fail with a "not connected" error — `fetch_global_feed` attempts the
query and passes the relay's result through, and `fetch_following_feed`
returns an empty `Ok` feed. -/
theorem c4_not_connected_cex :
    RelayManager.new.connected = false ∧
    RelayManager.new.fetch_global_feed 50 none (Except.ok [c4exEvent]) =
      Except.ok [c4exEvent] ∧
    RelayManager.new.fetch_following_feed 50 none (Except.ok [c4exEvent]) (Except.ok []) =
      Except.ok [] :=
  ⟨rfl, rfl, rfl⟩

/-- Claim C4 (amended): the `RelayManager` fetch methods never consult
the `connected` flag — their results are identical whether or not the
manager was ever connected; the fail-fast behaviour lives one layer up in
the bridge, whose shared manager slot is `None` until the login flow
connects and stores a manager, so a feed load through an empty slot fails
with "Relay manager not initialized. Please log in first." for every
oracle, consuming no relay response. -/
theorem c4_not_connected_amended (feed : FeedType) (limit : Nat) (untilTs : Option Int)
    (oracle : FetchOracle) (m : RelayManager)
    (textR repostR globalR : Except String (List NostrEvent)) :
    bridgeLoadFeed none feed limit oracle =
      Except.error "Relay manager not initialized. Please log in first." ∧
    RelayManager.fetch_following_feed { m with connected := false } limit untilTs textR repostR
      = RelayManager.fetch_following_feed { m with connected := true } limit untilTs
          textR repostR ∧
    RelayManager.fetch_global_feed { m with connected := false } limit untilTs globalR
      = RelayManager.fetch_global_feed { m with connected := true } limit untilTs globalR :=
  ⟨rfl, rfl, rfl⟩

/-! ## Claim C7: BOLT11 amount parsing -/

/-- Claim C7: `lnbc100u` (100 micro-BTC) parses to 100 × 100,000 msats,
`lnbc1m` (1 milli-BTC) parses to 1 × 100,000,000 msats, and an invoice
string whose lowercased form starts with none of the recognized
`lnbc`/`lntb`/`lnbcrt` prefixes parses to no amount. -/
theorem c7_bolt11_amounts :
    extract_bolt11_amount "lnbc100u" = some (100 * 100000) ∧
    extract_bolt11_amount "lnbc1m" = some (1 * 100000000) ∧
    (∀ s : String,
      List.isPrefixOf "lnbc".toList (s.toList.map Char.toLower) = false →
      List.isPrefixOf "lntb".toList (s.toList.map Char.toLower) = false →
      List.isPrefixOf "lnbcrt".toList (s.toList.map Char.toLower) = false →
      extract_bolt11_amount s = none) := by
  refine ⟨by decide, by decide, ?_⟩
  intro s h1 h2 h3
  simp only [extract_bolt11_amount]
  rw [h1, h2, h3]
  simp

/-- Witness for C7 on a string with an unrecognized prefix. -/
theorem c7_bolt11_amounts_witness : extract_bolt11_amount "xyz100u" = none :=
  c7_bolt11_amounts.2.2 "xyz100u" (by decide) (by decide) (by decide)

/-! ## Claim C8: zap amount bounds checked before the invoice fetch -/

theorem get_zap_invoice_below_min (r : LnurlPayResponse) (amount_msats : Nat)
    (zr : Option NostrEvent) (http : String → HttpOutcome)
    (h : amount_msats < r.min_sendable) :
    get_zap_invoice r amount_msats zr http =
      Except.error ("Amount " ++ toString amount_msats ++ " msats is below minimum "
        ++ toString r.min_sendable ++ " msats") := by
  unfold get_zap_invoice
  rw [if_pos h]

theorem get_zap_invoice_above_max (r : LnurlPayResponse) (amount_msats : Nat)
    (zr : Option NostrEvent) (http : String → HttpOutcome)
    (h1 : ¬ amount_msats < r.min_sendable) (h2 : amount_msats > r.max_sendable) :
    get_zap_invoice r amount_msats zr http =
      Except.error ("Amount " ++ toString amount_msats ++ " msats exceeds maximum "
        ++ toString r.max_sendable ++ " msats") := by
  unfold get_zap_invoice
  rw [if_neg h1, if_pos h2]

/-- Counterexample to C8 as stated: the saga's sats-to-msats conversion
is wrapping `u64` arithmetic, so a requested amount astronomically above
the declared maximum (here 2305843009213693957 sats, whose exact msats
value exceeds `max_sendable` but whose wrapped value is 5000 msats,
inside the declared 1000–10000 window) is not rejected — the saga
proceeds through the HTTP invoice fetch and the payment instead of
aborting with a bounds error. -/
theorem c8_zap_bounds_precheck_cex :
    c8exResponse.max_sendable < 2305843009213693957 * 1000 ∧
    2305843009213693957 * 1000 % 2 ^ 64 = 5000 ∧
    zap (Except.ok c8exResponse) (Except.ok c8exSigned) 2305843009213693957 c8exHttp2
      (fun _ => Except.ok "preimage") = Except.ok "preimage" :=
  ⟨by decide, by decide, rfl⟩

/-- Claim C8 (amended): the bounds validation happens before the
invoice-fetch HTTP call and applies to the msats amount the program
computes — for `get_zap_invoice` its `amount_msats` argument, and for
the `zap` saga the `u64`-wrapped `amount_sats * 1000`.  Whenever that
computed amount is below the declared minimum or above the declared
maximum, `get_zap_invoice` returns the bounds error for every HTTP
oracle (its result does not depend on the oracle, so no HTTP request is
observable) and the saga aborts with exactly that error, for every HTTP
and payment oracle.  For any request below the wrap threshold the
computed amount is exactly the requested amount. -/
theorem c8_zap_bounds_precheck (r : LnurlPayResponse) (amount_msats amount_sats : Nat)
    (zr : Option NostrEvent) (http http2 : String → HttpOutcome) (signed : NostrEvent)
    (payR payR2 : String → Except String String) :
    (amount_msats < r.min_sendable →
      get_zap_invoice r amount_msats zr http =
        Except.error ("Amount " ++ toString amount_msats ++ " msats is below minimum "
          ++ toString r.min_sendable ++ " msats") ∧
      get_zap_invoice r amount_msats zr http = get_zap_invoice r amount_msats zr http2) ∧
    (r.min_sendable ≤ amount_msats → amount_msats > r.max_sendable →
      get_zap_invoice r amount_msats zr http =
        Except.error ("Amount " ++ toString amount_msats ++ " msats exceeds maximum "
          ++ toString r.max_sendable ++ " msats") ∧
      get_zap_invoice r amount_msats zr http = get_zap_invoice r amount_msats zr http2) ∧
    (amount_sats * 1000 % 2 ^ 64 < r.min_sendable →
      zap (Except.ok r) (Except.ok signed) amount_sats http payR =
        Except.error ("Amount " ++ toString (amount_sats * 1000 % 2 ^ 64)
          ++ " msats is below minimum " ++ toString r.min_sendable ++ " msats") ∧
      zap (Except.ok r) (Except.ok signed) amount_sats http payR =
        zap (Except.ok r) (Except.ok signed) amount_sats http2 payR2) ∧
    (r.min_sendable ≤ amount_sats * 1000 % 2 ^ 64 →
      amount_sats * 1000 % 2 ^ 64 > r.max_sendable →
      zap (Except.ok r) (Except.ok signed) amount_sats http payR =
        Except.error ("Amount " ++ toString (amount_sats * 1000 % 2 ^ 64)
          ++ " msats exceeds maximum " ++ toString r.max_sendable ++ " msats") ∧
      zap (Except.ok r) (Except.ok signed) amount_sats http payR =
        zap (Except.ok r) (Except.ok signed) amount_sats http2 payR2) := by
  refine ⟨fun h => ?_, fun hmin h => ?_, fun h => ?_, fun hmin h => ?_⟩
  · rw [get_zap_invoice_below_min r amount_msats zr http h,
      get_zap_invoice_below_min r amount_msats zr http2 h]
    exact ⟨rfl, rfl⟩
  · rw [get_zap_invoice_above_max r amount_msats zr http (not_lt.mpr hmin) h,
      get_zap_invoice_above_max r amount_msats zr http2 (not_lt.mpr hmin) h]
    exact ⟨rfl, rfl⟩
  · have hz : ∀ (o : String → HttpOutcome) (pay : String → Except String String),
        zap (Except.ok r) (Except.ok signed) amount_sats o pay =
          Except.error ("Amount " ++ toString (amount_sats * 1000 % 2 ^ 64)
            ++ " msats is below minimum " ++ toString r.min_sendable ++ " msats") := by
      intro o pay
      unfold zap
      by_cases hn : r.allows_nostr = true
      · simp only [hn, if_pos, create_zap_request,
          get_zap_invoice_below_min r (amount_sats * 1000 % 2 ^ 64) (some signed) o h]
      · simp only [Bool.not_eq_true] at hn
        simp only [hn, Bool.false_eq_true, if_false,
          get_zap_invoice_below_min r (amount_sats * 1000 % 2 ^ 64) none o h]
    rw [hz http payR, hz http2 payR2]
    exact ⟨rfl, rfl⟩
  · have hz : ∀ (o : String → HttpOutcome) (pay : String → Except String String),
        zap (Except.ok r) (Except.ok signed) amount_sats o pay =
          Except.error ("Amount " ++ toString (amount_sats * 1000 % 2 ^ 64)
            ++ " msats exceeds maximum " ++ toString r.max_sendable ++ " msats") := by
      intro o pay
      unfold zap
      by_cases hn : r.allows_nostr = true
      · simp only [hn, if_pos, create_zap_request,
          get_zap_invoice_above_max r (amount_sats * 1000 % 2 ^ 64) (some signed) o
            (not_lt.mpr hmin) h]
      · simp only [Bool.not_eq_true] at hn
        simp only [hn, Bool.false_eq_true, if_false,
          get_zap_invoice_above_max r (amount_sats * 1000 % 2 ^ 64) none o
            (not_lt.mpr hmin) h]
    rw [hz http payR, hz http2 payR2]
    exact ⟨rfl, rfl⟩

/-- Witness for C8 (amended) on a concrete descriptor (1,000–10,000
msats): 5 msats is rejected below-minimum and the saga for 50,000 sats
(50,000,000 msats, below the wrap threshold) is rejected above-maximum,
with both HTTP oracles unused. -/
theorem c8_zap_bounds_precheck_witness :
    get_zap_invoice c8exResponse 5 none c8exHttp =
      Except.error "Amount 5 msats is below minimum 1000 msats" ∧
    zap (Except.ok c8exResponse) (Except.ok c8exSigned) 50000 c8exHttp
        (fun _ => Except.ok "paid") =
      Except.error "Amount 50000000 msats exceeds maximum 10000 msats" :=
  ⟨((c8_zap_bounds_precheck c8exResponse 5 50000 none c8exHttp c8exHttp2 c8exSigned
      (fun _ => Except.ok "paid") (fun _ => Except.ok "paid")).1 (by decide)).1,
   ((c8_zap_bounds_precheck c8exResponse 5 50000 none c8exHttp c8exHttp2 c8exSigned
      (fun _ => Except.ok "paid") (fun _ => Except.ok "paid")).2.2.2 (by decide) (by decide)).1⟩

/-! ## Claim C5: NWC connect state machine -/

/-- Counterexample to C5 as stated: `connect` on a malformed URI returns
the parse error, but the manager's state is left at `Connecting`, not at
`Error(reason)` — `connect` never assigns the `Error` state at all. -/
theorem c5_connect_state_cex :
    (NwcManager.new.connect "garbage" (Except.ok ()) (Except.ok 0)).2 =
      Except.error "Invalid NWC URI scheme" ∧
    (NwcManager.new.connect "garbage" (Except.ok ()) (Except.ok 0)).1.state =
      NwcState.Connecting ∧
    (NwcManager.new.connect "garbage" (Except.ok ()) (Except.ok 0)).1.state.isError = false :=
  ⟨rfl, rfl, rfl⟩

/-- Claim C5 (amended): `connect` moves the state to `Connecting` and
then either to `Connected` (exactly when it returns success) or leaves it
at `Connecting` (exactly when it returns an error, e.g. a malformed URI
or a failed relay add); the `Error(reason)` state is never produced by
`connect`. -/
theorem c5_connect_state_amended (m : NwcManager) (uri : String)
    (addRelayR : Except String Unit) (balanceR : Except String Int) :
    ((m.connect uri addRelayR balanceR).1.state = NwcState.Connected ∨
      (m.connect uri addRelayR balanceR).1.state = NwcState.Connecting) ∧
    ((m.connect uri addRelayR balanceR).2 = Except.ok () →
      (m.connect uri addRelayR balanceR).1.state = NwcState.Connected) ∧
    (∀ e, (m.connect uri addRelayR balanceR).2 = Except.error e →
      (m.connect uri addRelayR balanceR).1.state = NwcState.Connecting) ∧
    (m.connect uri addRelayR balanceR).1.state.isError = false := by
  simp only [NwcManager.connect]
  cases hu : NwcConnection.from_uri uri with
  | error e =>
    simp [NwcState.isError]
  | ok conn =>
    cases addRelayR with
    | error e2 => simp [NwcState.isError]
    | ok u =>
      cases balanceR with
      | ok b => simp [NwcState.isError]
      | error e3 => simp [NwcState.isError]

/-- Witness for C5 (amended): a well-formed URI with a successful relay
add connects, and the state lands on `Connected`. -/
theorem c5_connect_state_amended_witness :
    (NwcManager.new.connect c5exGoodUri (Except.ok ()) (Except.ok 21)).1.state =
      NwcState.Connected :=
  (c5_connect_state_amended NwcManager.new c5exGoodUri (Except.ok ()) (Except.ok 21)).2.1 rfl

/-! ## Claim C6: NWC URI round trip -/

theorem dropPfx_append (p l : List Char) : dropPfx (p ++ l) p = some l := by
  induction p with
  | nil => simp [dropPfx]
  | cons c cs ih => simp [dropPfx, ih]

theorem splitFirst_not_mem (sep : Char) (l : List Char) (h : sep ∉ l) :
    splitFirst sep l = none := by
  induction l with
  | nil => rfl
  | cons y ys ih =>
    simp only [List.mem_cons, not_or] at h
    simp [splitFirst, Ne.symm h.1, ih h.2]

theorem splitFirst_append (sep : Char) (a b : List Char) (h : sep ∉ a) :
    splitFirst sep (a ++ sep :: b) = some (a, b) := by
  induction a with
  | nil => simp [splitFirst]
  | cons y ys ih =>
    simp only [List.mem_cons, not_or] at h
    simp [splitFirst, Ne.symm h.1, ih h.2]

theorem splitAll_not_mem (sep : Char) (l : List Char) (h : sep ∉ l) :
    splitAll sep l = [l] := by
  induction l with
  | nil => rfl
  | cons y ys ih =>
    simp only [List.mem_cons, not_or] at h
    simp [splitAll, Ne.symm h.1, ih h.2]

theorem splitAll_append (sep : Char) (a b : List Char) (h : sep ∉ a) :
    splitAll sep (a ++ sep :: b) = a :: splitAll sep b := by
  induction a with
  | nil => simp [splitAll]
  | cons y ys ih =>
    simp only [List.mem_cons, not_or] at h
    simp [splitAll, Ne.symm h.1, ih h.2]

theorem urldecode_cons_ne (c : Char) (rest : List Char) (hc : c ≠ '%') :
    urldecode (c :: rest) = c :: urldecode rest := by
  cases rest with
  | nil => rfl
  | cons a rest1 =>
    cases rest1 with
    | nil => rfl
    | cons b rest2 => simp only [urldecode, if_neg hc]

theorem urldecode_not_mem (l : List Char) (h : '%' ∉ l) : urldecode l = l := by
  induction l with
  | nil => rfl
  | cons y ys ih =>
    simp only [List.mem_cons, not_or] at h
    rw [urldecode_cons_ne y ys (Ne.symm h.1), ih h.2]

/-- The sixteen canonical hex characters are hex digits, fixed by the
canonicalisation, distinct from every URI delimiter, and not
whitespace. -/
theorem lowerHex_facts :
    ∀ c ∈ lowerHexChars, (hexVal c).isSome = true ∧ hexCanon c = c ∧
      c ≠ '&' ∧ c ≠ '%' ∧ c ≠ '?' ∧ c ≠ '=' ∧ c.isWhitespace = false := by
  decide

theorem trimChars_eq_self (l : List Char)
    (h1 : ∀ c, l.head? = some c → c.isWhitespace = false)
    (h2 : ∀ c, l.getLast? = some c → c.isWhitespace = false) :
    trimChars l = l := by
  rcases l.eq_nil_or_concat with rfl | ⟨ys, d, rfl⟩
  · rfl
  · simp only [List.concat_eq_append] at h1 h2 ⊢
    have hd : d.isWhitespace = false := h2 d (by rw [List.getLast?_concat])
    unfold trimChars
    have hfront : (ys ++ [d]).dropWhile Char.isWhitespace = ys ++ [d] := by
      cases hys : ys ++ [d] with
      | nil => simp at hys
      | cons c rest =>
        have hc : c.isWhitespace = false := h1 c (by rw [hys]; rfl)
        rw [List.dropWhile_cons]
        simp [hc]
    rw [hfront, List.reverse_append]
    simp only [List.reverse_cons, List.reverse_nil, List.nil_append, List.singleton_append]
    rw [List.dropWhile_cons]
    simp [hd]

theorem getLast_append_notWs (a s : List Char) (hs : ∀ c ∈ s, c.isWhitespace = false)
    (hne : s ≠ []) : ∀ c, (a ++ s).getLast? = some c → c.isWhitespace = false := by
  intro c hc
  rcases s.eq_nil_or_concat with rfl | ⟨ys, d, rfl⟩
  · exact absurd rfl hne
  · simp only [List.concat_eq_append] at hc hs
    rw [← List.append_assoc, List.getLast?_concat] at hc
    injection hc with hdc
    subst hdc
    exact hs d (by simp)

theorem head_scheme_notWs (l : List Char) :
    ∀ c, ("nostr+walletconnect://".toList ++ l).head? = some c → c.isWhitespace = false := by
  intro c hc
  have hn : ("nostr+walletconnect://".toList ++ l).head? = some 'n' := rfl
  rw [hn] at hc
  injection hc with h
  subst h
  decide

/-- Claim C6: parsing `scheme://X?relay=R&secret=S` built from a
64-digit lowercase-hex pubkey `X`, a relay URL `R` (free of `&` and `%`
and of whitespace) and a 64-digit lowercase-hex secret `S` recovers
exactly `X`, `R` and `S` (and no `lud16`); dropping the `secret`
parameter, the `relay` parameter, or the pubkey each yields a parse
error. -/
theorem c6_nwc_uri_roundtrip (x r s : List Char)
    (hx64 : x.length = 64) (hx : ∀ c ∈ x, c ∈ lowerHexChars)
    (hs64 : s.length = 64) (hs : ∀ c ∈ s, c ∈ lowerHexChars)
    (hramp : '&' ∉ r) (hrpct : '%' ∉ r) (hrws : ∀ c ∈ r, c.isWhitespace = false) :
    NwcConnection.fromUriChars (mkNwcUri x r s) =
      Except.ok { relay_url := r, wallet_pubkey := x, secret := s, lud16 := none } ∧
    NwcConnection.fromUriChars (mkNwcUriNoSecret x r) =
      Except.error "Missing secret in NWC URI" ∧
    NwcConnection.fromUriChars (mkNwcUriNoRelay x s) =
      Except.error "Missing relay in NWC URI" ∧
    NwcConnection.fromUriChars (mkNwcUriNoPubkey r s) =
      Except.error "Invalid pubkey in NWC URI" := by
  have hsne : s ≠ [] := by
    intro h0
    rw [h0] at hs64
    simp at hs64
  have hsws : ∀ c ∈ s, c.isWhitespace = false :=
    fun c hc => (lowerHex_facts c (hs c hc)).2.2.2.2.2.2
  have hxq : '?' ∉ x := fun hm => absurd (hx '?' hm) (by decide)
  have hsamp : '&' ∉ s := fun hm => absurd (hs '&' hm) (by decide)
  have hpkx : pubkeyFromHex x = some x := by
    unfold pubkeyFromHex
    rw [if_pos ⟨hx64, List.all_eq_true.mpr (fun c hc => (lowerHex_facts c (hx c hc)).1)⟩]
    have hcanon : ∀ c ∈ x, hexCanon c = id c :=
      fun c hc => (lowerHex_facts c (hx c hc)).2.1
    rw [List.map_congr_left hcanon, List.map_id]
  have hsk : secretKeyFromHex s = some s := by
    unfold secretKeyFromHex
    rw [if_pos ⟨hs64, List.all_eq_true.mpr (fun c hc => (lowerHex_facts c (hs c hc)).1)⟩]
    have hcanon : ∀ c ∈ s, hexCanon c = id c :=
      fun c hc => (lowerHex_facts c (hs c hc)).2.1
    rw [List.map_congr_left hcanon, List.map_id]
  have hamp1 : '&' ∉ ("relay=".toList ++ r) := by
    intro hm
    rcases List.mem_append.mp hm with hm | hm
    · exact absurd hm (by decide)
    · exact hramp hm
  have hamp2 : '&' ∉ ("secret=".toList ++ s) := by
    intro hm
    rcases List.mem_append.mp hm with hm | hm
    · exact absurd hm (by decide)
    · exact hsamp hm
  have hp1 : splitFirst '=' ("relay=".toList ++ r) = some ("relay".toList, r) :=
    splitFirst_append '=' "relay".toList r (by decide)
  have hp2 : splitFirst '=' ("secret=".toList ++ s) = some ("secret".toList, s) :=
    splitFirst_append '=' "secret".toList s (by decide)
  have hp1c : splitFirst '=' ('r' :: 'e' :: 'l' :: 'a' :: 'y' :: '=' :: r)
      = some (['r', 'e', 'l', 'a', 'y'], r) := hp1
  have hp2c : splitFirst '=' ('s' :: 'e' :: 'c' :: 'r' :: 'e' :: 't' :: '=' :: s)
      = some (['s', 'e', 'c', 'r', 'e', 't'], s) := hp2
  have hkne : (['s', 'e', 'c', 'r', 'e', 't'] : List Char) ≠ ['r', 'e', 'l', 'a', 'y'] := by
    decide
  have hkne2 : (['s', 'e', 'c', 'r', 'e', 't'] : List Char) ≠ ['l', 'u', 'd', '1', '6'] := by
    decide
  have hquery : parseParams
      (splitAll '&' ("relay=".toList ++ (r ++ ('&' :: ("secret=".toList ++ s)))))
      none none none = (some r, some s, none) := by
    have hassoc : "relay=".toList ++ (r ++ ('&' :: ("secret=".toList ++ s)))
        = ("relay=".toList ++ r) ++ ('&' :: ("secret=".toList ++ s)) := by
      simp [List.append_assoc]
    rw [hassoc, splitAll_append '&' _ _ hamp1, splitAll_not_mem '&' _ hamp2]
    simp [parseParams, hp1c, hp2c, hkne, hkne2, urldecode_not_mem r hrpct]
  -- trim is the identity on all four URIs
  have htrim1 : trimChars (mkNwcUri x r s) = mkNwcUri x r s := by
    apply trimChars_eq_self
    · exact head_scheme_notWs _
    · intro c hc
      rcases s.eq_nil_or_concat with rfl | ⟨ys, d, rfl⟩
      · exact absurd rfl hsne
      · simp only [List.concat_eq_append] at hc hsws
        rw [show mkNwcUri x r (ys ++ [d]) =
            ("nostr+walletconnect://".toList ++ (x ++ ('?' :: ("relay=".toList ++
              (r ++ ('&' :: ("secret=".toList ++ ys))))))) ++ [d] by
          simp [mkNwcUri, List.append_assoc]] at hc
        rw [List.getLast?_concat] at hc
        injection hc with h
        subst h
        exact hsws _ (by simp)
  have htrim2 : trimChars (mkNwcUriNoSecret x r) = mkNwcUriNoSecret x r := by
    apply trimChars_eq_self
    · exact head_scheme_notWs _
    · rcases r.eq_nil_or_concat with rfl | ⟨ys, d, rfl⟩
      · intro c hc
        have h0 : (mkNwcUriNoSecret x []).getLast? = some '=' := by
          rw [show mkNwcUriNoSecret x [] =
              ("nostr+walletconnect://".toList ++ (x ++ ('?' :: "relay".toList))) ++ ['='] by
            simp [mkNwcUriNoSecret, List.append_assoc]]
          rw [List.getLast?_concat]
        rw [h0] at hc
        injection hc with h
        subst h
        decide
      · intro c hc
        simp only [List.concat_eq_append] at hc hrws
        rw [show mkNwcUriNoSecret x (ys ++ [d]) =
            ("nostr+walletconnect://".toList ++ (x ++ ('?' :: ("relay=".toList ++ ys))))
              ++ [d] by
          simp [mkNwcUriNoSecret, List.append_assoc]] at hc
        rw [List.getLast?_concat] at hc
        injection hc with h
        subst h
        exact hrws _ (by simp)
  have htrim3 : trimChars (mkNwcUriNoRelay x s) = mkNwcUriNoRelay x s := by
    apply trimChars_eq_self
    · exact head_scheme_notWs _
    · intro c hc
      rcases s.eq_nil_or_concat with rfl | ⟨ys, d, rfl⟩
      · exact absurd rfl hsne
      · simp only [List.concat_eq_append] at hc hsws
        rw [show mkNwcUriNoRelay x (ys ++ [d]) =
            ("nostr+walletconnect://".toList ++ (x ++ ('?' :: ("secret=".toList ++ ys))))
              ++ [d] by
          simp [mkNwcUriNoRelay, List.append_assoc]] at hc
        rw [List.getLast?_concat] at hc
        injection hc with h
        subst h
        exact hsws _ (by simp)
  have htrim4 : trimChars (mkNwcUriNoPubkey r s) = mkNwcUriNoPubkey r s := by
    apply trimChars_eq_self
    · exact head_scheme_notWs _
    · intro c hc
      rcases s.eq_nil_or_concat with rfl | ⟨ys, d, rfl⟩
      · exact absurd rfl hsne
      · simp only [List.concat_eq_append] at hc hsws
        rw [show mkNwcUriNoPubkey r (ys ++ [d]) =
            ("nostr+walletconnect://".toList ++ ('?' :: ("relay=".toList ++
              (r ++ ('&' :: ("secret=".toList ++ ys)))))) ++ [d] by
          simp [mkNwcUriNoPubkey, List.append_assoc]] at hc
        rw [List.getLast?_concat] at hc
        injection hc with h
        subst h
        exact hsws _ (by simp)
  refine ⟨?_, ?_, ?_, ?_⟩
  · -- full round trip
    simp only [NwcConnection.fromUriChars]
    rw [htrim1]
    rw [show mkNwcUri x r s = "nostr+walletconnect://".toList ++
        (x ++ ('?' :: ("relay=".toList ++ (r ++ ('&' :: ("secret=".toList ++ s)))))) from rfl]
    rw [dropPfx_append]
    simp only [Option.or]
    rw [splitFirst_append '?' x _ hxq]
    simp only
    rw [hpkx]
    simp only [Option.or]
    rw [hquery]
    simp only
    rw [hsk]
  · -- missing secret
    simp only [NwcConnection.fromUriChars]
    rw [htrim2]
    rw [show mkNwcUriNoSecret x r = "nostr+walletconnect://".toList ++
        (x ++ ('?' :: ("relay=".toList ++ r))) from rfl]
    rw [dropPfx_append]
    simp only [Option.or]
    rw [splitFirst_append '?' x _ hxq]
    simp only
    rw [hpkx]
    simp only [Option.or]
    rw [splitAll_not_mem '&' _ hamp1]
    simp [parseParams, hp1c]
  · -- missing relay
    simp only [NwcConnection.fromUriChars]
    rw [htrim3]
    rw [show mkNwcUriNoRelay x s = "nostr+walletconnect://".toList ++
        (x ++ ('?' :: ("secret=".toList ++ s))) from rfl]
    rw [dropPfx_append]
    simp only [Option.or]
    rw [splitFirst_append '?' x _ hxq]
    simp only
    rw [hpkx]
    simp only [Option.or]
    rw [splitAll_not_mem '&' _ hamp2]
    simp [parseParams, hp2c, hkne, hkne2]
  · -- missing pubkey
    simp only [NwcConnection.fromUriChars]
    rw [htrim4]
    rw [show mkNwcUriNoPubkey r s = "nostr+walletconnect://".toList ++
        ('?' :: ("relay=".toList ++ (r ++ ('&' :: ("secret=".toList ++ s))))) from rfl]
    rw [dropPfx_append]
    simp only [Option.or]
    rw [show splitFirst '?' ('?' :: ("relay=".toList ++ (r ++ ('&' ::
        ("secret=".toList ++ s))))) = some ([], "relay=".toList ++ (r ++ ('&' ::
        ("secret=".toList ++ s)))) from rfl]
    simp [pubkeyFromHex, pubkeyFromBech32, Option.or]

/-- Witness for C6 at a concrete key pair and relay URL. -/
theorem c6_nwc_uri_roundtrip_witness :
    NwcConnection.fromUriChars (mkNwcUri c6exX c6exR c6exS) =
      Except.ok { relay_url := c6exR, wallet_pubkey := c6exX, secret := c6exS,
                  lud16 := none } :=
  have hx64 : c6exX.length = 64 := by decide
  have hxmem : ∀ c ∈ c6exX, c ∈ lowerHexChars := by decide
  have hs64 : c6exS.length = 64 := by decide
  have hsmem : ∀ c ∈ c6exS, c ∈ lowerHexChars := by decide
  have hramp : '&' ∉ c6exR := by decide
  have hrpct : '%' ∉ c6exR := by decide
  have hrws : ∀ c ∈ c6exR, c.isWhitespace = false := by decide
  (c6_nwc_uri_roundtrip c6exX c6exR c6exS hx64 hxmem hs64 hsmem hramp hrpct hrws).1

end Pleb
